import Mathlib

/-!
Shallow embedding of the ChinaScout bridge's reputation subsystem
(`src/ranking.go`, `src/main.go`).

The Go `map[string]*User` is embedded as an association list
`List (String × User)` (first binding of a key wins on lookup; mutating an
existing entry rewrites that binding in place, inserting a fresh key appends).
The filesystem is embedded as `Option (List (String × User))`: `none` is an
absent `users.json`, `some m` is a file holding the JSON encoding of the map
`m` (Go's `encoding/json` round-trips `map[string]*User` faithfully, so the
file is modelled by the map value it encodes).  The `sync.Mutex` serialises
every operation in the source, so operations are embedded as plain sequential
state transformers.
-/

namespace ChinaScout

/-- Record `User` from ranking.go: a platform user id and a signed integer rating. -/
structure User where
  id : String
  rating : Int
  deriving Repr, DecidableEq

/-- The in-memory part of `Ranking` from ranking.go: the users map, the admin
set (loaded once at startup), and the `isModified` dirty flag. -/
structure Ranking where
  users : List (String × User)
  admins : List String
  isModified : Bool
  deriving Repr, DecidableEq

/-- File system state for the single `users.json` path: `none` if the file
does not exist, `some m` if it holds the encoding of map `m`. -/
abbrev FS := Option (List (String × User))

/-- Go map read `r.users[id]`: first binding of the key. -/
def lookupUser : List (String × User) → String → Option User
  | [], _ => none
  | (k, u) :: rest, id => if k = id then some u else lookupUser rest id

/-- Rewrite the first binding of `id` (Go's in-place `user.Rating += points`
through the stored pointer). Leaves the list unchanged if `id` is absent. -/
def setUser : List (String × User) → String → User → List (String × User)
  | [], _, _ => []
  | (k, u) :: rest, id, v =>
    if k = id then (k, v) :: rest else (k, u) :: setUser rest id v

/-- Go map assignment `m[k] = u`: overwrite the binding if present, else add. -/
def insertUser (m : List (String × User)) (k : String) (u : User) :
    List (String × User) :=
  match lookupUser m k with
  | some _ => setUser m k u
  | none => m ++ [(k, u)]

/-- State after `NewRanking` has loaded the admin file: empty users map,
given admin set, dirty flag clear. -/
def NewRanking (admins : List String) : Ranking :=
  { users := [], admins := admins, isModified := false }

/-- Operation `Ranking.AddUser`: insert a zero-rating record if the id is absent and
mark dirty; otherwise leave everything untouched. -/
def AddUser (st : Ranking) (id : String) : Ranking :=
  match lookupUser st.users id with
  | some _ => st
  | none => { st with users := st.users ++ [(id, ⟨id, 0⟩)], isModified := true }

/-- Operation `Ranking.UpdateRating`: add `points` to an existing record's rating, or
create the record with rating `points`; always mark dirty. -/
def UpdateRating (st : Ranking) (id : String) (points : Int) : Ranking :=
  match lookupUser st.users id with
  | some u =>
    { st with users := setUser st.users id ⟨u.id, u.rating + points⟩,
              isModified := true }
  | none =>
    { st with users := st.users ++ [(id, ⟨id, points⟩)], isModified := true }

/-- Operation `Ranking.GetRating`: rating of the record if present, else 0. Performs no
mutation in the source (a Go map read does not insert), hence it is a pure
function of the state here. -/
def GetRating (st : Ranking) (id : String) : Int :=
  match lookupUser st.users id with
  | some u => u.rating
  | none => 0

/-- One step of the descending sort used by `GetTop5`: place `u` before the
first element with a strictly smaller rating. This realises
`sort.Slice(users, func(i, j) { return users[i].Rating > users[j].Rating })`:
the result is sorted by rating descending; the comparator specifies nothing
about the order of equal ratings (ties are implementation-defined). -/
def insertDesc (u : User) : List User → List User
  | [] => [u]
  | v :: rest => if v.rating < u.rating then u :: v :: rest else v :: insertDesc u rest

/-- Full descending sort of the collected user records. -/
def sortDesc : List User → List User
  | [] => []
  | u :: rest => insertDesc u (sortDesc rest)

/-- Operation `Ranking.GetTop5`: copy all records out of the map, sort them by rating
descending, and truncate to at most 5. -/
def GetTop5 (st : Ranking) : List User :=
  (sortDesc (st.users.map (fun kv => kv.2))).take 5

/-- Operation `Ranking.IsAdmin`: membership in the admin set. -/
def IsAdmin (st : Ranking) (id : String) : Bool :=
  st.admins.contains id

/-- Operation `Ranking.SaveToFile`: if the dirty flag is clear, return immediately with
no filesystem write; otherwise write the full encoded map to the path and
clear the flag. (The `os.Create`/encode error path is I/O failure external to
the logic; the embedding models the successful write.) -/
def SaveToFile (st : Ranking) (fs : FS) : Ranking × FS :=
  if st.isModified then
    ({ st with isModified := false }, some st.users)
  else
    (st, fs)

/-- Decoding a JSON object into a non-nil Go map assigns each decoded entry
into the existing map: keys in the object overwrite, other keys survive. -/
def mergeUsers (m recs : List (String × User)) : List (String × User) :=
  recs.foldl (fun acc ku => insertUser acc ku.1 ku.2) m

/-- Operation `Ranking.LoadFromFile`: an absent file is not an error and leaves the map
as is; otherwise `json.Decoder.Decode(&r.users)` decodes into the existing
non-nil map, keeping entries whose keys are absent from the file and
overwriting keys present in it. The dirty flag is not touched. -/
def LoadFromFile (st : Ranking) (fs : FS) : Ranking :=
  match fs with
  | none => st
  | some recs => { st with users := mergeUsers st.users recs }

/-! ### The `!china` admin command (`Ranking.HandleChinaCommand`) -/

/-- Predicate `unicode.IsSpace` restricted to the Latin-1 range, as used by `strings.Fields`. -/
def isSpaceChar (c : Char) : Bool :=
  c = ' ' || c = '\t' || c = '\n' || c = '\x0b' || c = '\x0c' || c = '\r' ||
    c = '\x85' || c = '\xa0'

/-- Accumulator-based splitter behind `goFields`. -/
def fieldsAux : List Char → List Char → List (List Char)
  | acc, [] => if acc.isEmpty then [] else [acc.reverse]
  | acc, c :: rest =>
    if isSpaceChar c then
      if acc.isEmpty then fieldsAux [] rest
      else acc.reverse :: fieldsAux [] rest
    else fieldsAux (c :: acc) rest

/-- Function `strings.Fields`: split around runs of whitespace, dropping empties. -/
def goFields (s : List Char) : List (List Char) := fieldsAux [] s

def isDigitChar (c : Char) : Bool := '0' ≤ c && c ≤ '9'

def digitsVal (ds : List Char) : Nat :=
  ds.foldl (fun n c => 10 * n + (c.toNat - Char.toNat '0')) 0

/-- Function `strconv.Atoi` on a 64-bit platform: an optional sign followed by at
least one decimal digit, rejected when the value leaves the int64 range. -/
def atoi : List Char → Option Int
  | [] => none
  | '+' :: rest =>
    if !rest.isEmpty && rest.all isDigitChar &&
        digitsVal rest ≤ 9223372036854775807 then
      some (digitsVal rest : Int)
    else none
  | '-' :: rest =>
    if !rest.isEmpty && rest.all isDigitChar &&
        digitsVal rest ≤ 9223372036854775808 then
      some (-(digitsVal rest : Int))
    else none
  | s =>
    if s.all isDigitChar && digitsVal s ≤ 9223372036854775807 then
      some (digitsVal s : Int)
    else none

/-- Test `strings.HasPrefix` plus removal: `some` of the remainder when `p` leads
`s`, else `none`. -/
def leadMatch : List Char → List Char → Option (List Char)
  | [], s => some s
  | _ :: _, [] => none
  | p :: ps, c :: cs => if p = c then leadMatch ps cs else none

/-- Function `strings.TrimPrefix`. -/
def trimHead (p s : List Char) : List Char := (leadMatch p s).getD s

/-- Function `strings.TrimSuffix`, via the reversal of `trimHead`. -/
def trimTail (p s : List Char) : List Char :=
  (trimHead p.reverse s.reverse).reverse

/-- The mention normalisation applied to both the author id and the target
argument: `TrimPrefix "<@"`, then `TrimSuffix ">"`, then `TrimPrefix "!"`. -/
def cleanMention (s : List Char) : List Char :=
  trimHead ['!'] (trimTail ['>'] (trimHead ['<', '@'] s))

/-- The user-visible outcome of `HandleChinaCommand` (which of the four
`ChannelMessageSend` replies was issued). The save-failure reply can only
arise from an `os.Create`/encode I/O error, which the embedding's always-
successful filesystem does not produce. -/
inductive Reply
  | permissionDenied
  | usageFormat
  | usageInteger
  | confirmation (target : String) (points : Int)
  deriving Repr, DecidableEq

/-- Operation `Ranking.HandleChinaCommand`: normalise the author id, gate on
`IsAdmin`, split the command into fields, require at least three, parse the
delta with `Atoi`, and only then `UpdateRating` the normalised target,
save, and confirm. -/
def HandleChinaCommand (st : Ranking) (fs : FS) (authorID command : String) :
    Ranking × FS × Reply :=
  let userID : String := ⟨cleanMention authorID.data⟩
  if IsAdmin st userID then
    match goFields command.data with
    | _ :: p1 :: p2 :: _ =>
      let targetID : String := ⟨cleanMention p1⟩
      match atoi p2 with
      | none => (st, fs, Reply.usageInteger)
      | some points =>
        let saved := SaveToFile (UpdateRating st targetID points) fs
        (saved.1, saved.2, Reply.confirmation targetID points)
    | _ => (st, fs, Reply.usageFormat)
  else (st, fs, Reply.permissionDenied)

/-! ### Basic lookup lemmas -/

theorem lookupUser_append_self (m : List (String × User)) (id : String)
    (u : User) (h : lookupUser m id = none) :
    lookupUser (m ++ [(id, u)]) id = some u := by
  induction m with
  | nil => simp [lookupUser]
  | cons kv rest ih =>
    obtain ⟨k, v⟩ := kv
    by_cases hk : k = id
    · simp [lookupUser, hk] at h
    · simp only [lookupUser, hk, if_neg hk, List.cons_append] at h ⊢
      exact ih h

theorem lookupUser_setUser_self (m : List (String × User)) (id : String)
    (u v : User) (h : lookupUser m id = some u) :
    lookupUser (setUser m id v) id = some v := by
  induction m with
  | nil => simp [lookupUser] at h
  | cons kv rest ih =>
    obtain ⟨k, w⟩ := kv
    by_cases hk : k = id
    · simp [lookupUser, setUser, hk]
    · simp only [lookupUser, setUser, hk, if_neg hk] at h ⊢
      exact ih h

theorem lookupUser_setUser_other (m : List (String × User)) (id k : String)
    (v : User) (h : k ≠ id) :
    lookupUser (setUser m id v) k = lookupUser m k := by
  induction m with
  | nil => simp [setUser]
  | cons kv rest ih =>
    obtain ⟨k0, w⟩ := kv
    by_cases hk : k0 = id
    · subst hk
      have hne : ¬ k0 = k := fun hh => h (hh.symm.trans rfl)
      simp [setUser, lookupUser, hne]
    · simp only [setUser, if_neg hk, lookupUser]
      by_cases hk2 : k0 = k
      · simp [hk2]
      · simp [hk2, ih]

theorem lookupUser_of_not_mem (m : List (String × User)) (k : String)
    (h : k ∉ m.map Prod.fst) : lookupUser m k = none := by
  induction m with
  | nil => rfl
  | cons kv rest ih =>
    obtain ⟨k0, w⟩ := kv
    simp only [List.map_cons, List.mem_cons] at h
    push_neg at h
    have hne : ¬ k0 = k := fun hh => h.1 hh.symm
    simp only [lookupUser, if_neg hne]
    exact ih h.2

theorem lookupUser_insertUser_self (m : List (String × User)) (k : String)
    (u : User) : lookupUser (insertUser m k u) k = some u := by
  unfold insertUser
  cases hl : lookupUser m k with
  | some v => exact lookupUser_setUser_self m k v u hl
  | none => exact lookupUser_append_self m k u hl

theorem lookupUser_append_single_other (m : List (String × User))
    (id k : String) (u : User) (h : k ≠ id) :
    lookupUser (m ++ [(id, u)]) k = lookupUser m k := by
  have hne : ¬ id = k := fun hh => h hh.symm
  induction m with
  | nil => simp [lookupUser, hne]
  | cons kv rest ih =>
    obtain ⟨k0, w⟩ := kv
    by_cases hk : k0 = k
    · simp [lookupUser, hk]
    · simp [lookupUser, hk, ih]

theorem lookupUser_insertUser_other (m : List (String × User)) (id k : String)
    (u : User) (h : k ≠ id) :
    lookupUser (insertUser m id u) k = lookupUser m k := by
  unfold insertUser
  cases lookupUser m id with
  | some v => exact lookupUser_setUser_other m id k u h
  | none => exact lookupUser_append_single_other m id k u h

theorem lookupUser_mergeUsers (recs : List (String × User))
    (hnd : (recs.map Prod.fst).Nodup) (m : List (String × User)) (k : String) :
    lookupUser (mergeUsers m recs) k =
      match lookupUser recs k with
      | some u => some u
      | none => lookupUser m k := by
  induction recs generalizing m with
  | nil => simp [mergeUsers, lookupUser]
  | cons ku rest ih =>
    obtain ⟨k0, u0⟩ := ku
    simp only [List.map_cons, List.nodup_cons] at hnd
    obtain ⟨hk0, hrest⟩ := hnd
    show lookupUser (mergeUsers (insertUser m k0 u0) rest) k = _
    rw [ih hrest]
    by_cases hk : k0 = k
    · subst hk
      rw [lookupUser_of_not_mem rest k0 hk0]
      simp only [lookupUser, if_pos rfl]
      exact lookupUser_insertUser_self m k0 u0
    · simp only [lookupUser, if_neg hk]
      cases lookupUser rest k with
      | some v => rfl
      | none => exact lookupUser_insertUser_other m k0 k u0 (fun hh => hk hh.symm)

theorem not_mem_of_lookupUser_none (m : List (String × User)) (k : String)
    (h : lookupUser m k = none) : k ∉ m.map Prod.fst := by
  induction m with
  | nil => simp
  | cons kv rest ih =>
    obtain ⟨k0, w⟩ := kv
    by_cases hk : k0 = k
    · simp [lookupUser, hk] at h
    · simp only [lookupUser, if_neg hk] at h
      simp only [List.map_cons, List.mem_cons]
      push_neg
      exact ⟨fun hh => hk hh.symm, ih h⟩

/-! ### Sorting lemmas for `GetTop5` -/

/-- The descending order on ratings established by `GetTop5`'s comparator. -/
def ratingGE (a b : User) : Prop := b.rating ≤ a.rating

instance : DecidableRel ratingGE := fun a b => by
  unfold ratingGE; infer_instance

theorem insertDesc_perm (u : User) (l : List User) :
    (insertDesc u l).Perm (u :: l) := by
  induction l with
  | nil => exact List.Perm.refl _
  | cons v rest ih =>
    unfold insertDesc
    by_cases h : v.rating < u.rating
    · simp [h]
    · simp only [if_neg h]
      exact (ih.cons v).trans (List.Perm.swap u v rest)

theorem sortDesc_perm (l : List User) : (sortDesc l).Perm l := by
  induction l with
  | nil => exact List.Perm.refl _
  | cons u rest ih => exact (insertDesc_perm u (sortDesc rest)).trans (ih.cons u)

theorem insertDesc_pairwise (u : User) (l : List User)
    (h : l.Pairwise ratingGE) : (insertDesc u l).Pairwise ratingGE := by
  induction l with
  | nil => simp [insertDesc, List.pairwise_singleton]
  | cons v rest ih =>
    rw [List.pairwise_cons] at h
    obtain ⟨hv, hrest⟩ := h
    unfold insertDesc
    by_cases hvu : v.rating < u.rating
    · rw [if_pos hvu, List.pairwise_cons]
      refine ⟨fun x hx => ?_, List.pairwise_cons.mpr ⟨hv, hrest⟩⟩
      rcases List.mem_cons.mp hx with hxv | hxr
      · subst hxv; exact le_of_lt hvu
      · exact (hv x hxr).trans (le_of_lt hvu)
    · rw [if_neg hvu, List.pairwise_cons]
      refine ⟨fun x hx => ?_, ih hrest⟩
      rcases List.mem_cons.mp ((insertDesc_perm u rest).mem_iff.mp hx) with
        hxu | hxr
      · subst hxu; exact le_of_not_lt hvu
      · exact hv x hxr

theorem sortDesc_pairwise (l : List User) :
    (sortDesc l).Pairwise ratingGE := by
  induction l with
  | nil => exact List.Pairwise.nil
  | cons u rest ih => exact insertDesc_pairwise u (sortDesc rest) ih

theorem getRating_updateRating_self (st : Ranking) (id : String) (p : Int) :
    GetRating (UpdateRating st id p) id = GetRating st id + p := by
  unfold GetRating UpdateRating
  cases hl : lookupUser st.users id with
  | some u =>
    simp only [hl]
    rw [lookupUser_setUser_self st.users id u _ hl]
  | none =>
    simp only [hl]
    rw [lookupUser_append_self st.users id _ hl]
    simp

/-- Flag `isModified` after `UpdateRating` is always true. -/
theorem updateRating_isModified (st : Ranking) (id : String) (p : Int) :
    (UpdateRating st id p).isModified = true := by
  unfold UpdateRating
  cases lookupUser st.users id <;> rfl

/-- Calling `AddUser` on an absent id sets the dirty flag. -/
theorem addUser_isModified (st : Ranking) (id : String)
    (h : lookupUser st.users id = none) : (AddUser st id).isModified = true := by
  unfold AddUser
  rw [h]

/-- Calling `AddUser` on a present id changes nothing. -/
theorem addUser_present (st : Ranking) (id : String) (u : User)
    (h : lookupUser st.users id = some u) : AddUser st id = st := by
  unfold AddUser
  rw [h]

/-- A sequence of `UpdateRating` calls for the same target, applied in order. -/
def applyDeltas (st : Ranking) (id : String) (ds : List Int) : Ranking :=
  ds.foldl (fun s d => UpdateRating s id d) st

theorem getRating_applyDeltas (st : Ranking) (id : String) (ds : List Int) :
    GetRating (applyDeltas st id ds) id = GetRating st id + ds.sum := by
  induction ds generalizing st with
  | nil => simp [applyDeltas]
  | cons d rest ih =>
    show GetRating (applyDeltas (UpdateRating st id d) id rest) id = _
    rw [ih, getRating_updateRating_self, List.sum_cons]
    ring

/-! ### Claim C1 -/

/-- C1: for every initial ledger state and every finite sequence of
`UpdateRating` calls with the same target id, the final `GetRating id` equals
the initial rating plus the sum of all deltas; for an initially absent id the
result is exactly the sum of the deltas (deltas may be negative; there is no
floor or ceiling clamp, the accumulation is plain integer addition). -/
theorem claim_C1_adjust_sum :
    (∀ (st : Ranking) (id : String) (ds : List Int),
      GetRating (applyDeltas st id ds) id = GetRating st id + ds.sum) ∧
    (∀ (st : Ranking) (id : String) (ds : List Int),
      lookupUser st.users id = none →
        GetRating (applyDeltas st id ds) id = ds.sum) := by
  refine ⟨getRating_applyDeltas, fun st id ds h => ?_⟩
  rw [getRating_applyDeltas]
  unfold GetRating
  rw [h]
  ring

theorem claim_C1_adjust_sum_witness :
    lookupUser (NewRanking []).users "U1" = none ∧
    GetRating (applyDeltas (NewRanking []) "U1" [5, -30, 7]) "U1" = -18 := by
  refine ⟨rfl, ?_⟩
  rw [claim_C1_adjust_sum.2 (NewRanking []) "U1" [5, -30, 7] rfl]
  rfl

/-! ### Claim C2 -/

/-- C2: the dirty-flag invariant. `AddUser` sets `isModified` when it inserts
(and leaves the state untouched otherwise); every `UpdateRating` call sets it;
every `SaveToFile` leaves it cleared; and a `SaveToFile` that finds the flag
clear returns with the state and the filesystem both completely unchanged
(no create, truncate, or rewrite of the target file) and reports success. -/
theorem claim_C2_dirty_flag :
    (∀ (st : Ranking) (id : String),
      lookupUser st.users id = none → (AddUser st id).isModified = true) ∧
    (∀ (st : Ranking) (id : String) (u : User),
      lookupUser st.users id = some u → AddUser st id = st) ∧
    (∀ (st : Ranking) (id : String) (p : Int),
      (UpdateRating st id p).isModified = true) ∧
    (∀ (st : Ranking) (fs : FS), (SaveToFile st fs).1.isModified = false) ∧
    (∀ (st : Ranking) (fs : FS),
      st.isModified = false → SaveToFile st fs = (st, fs)) := by
  refine ⟨addUser_isModified, addUser_present, updateRating_isModified,
    fun st fs => ?_, fun st fs h => ?_⟩
  · unfold SaveToFile
    by_cases h : st.isModified = true
    · simp [h]
    · simp at h
      simp [SaveToFile, h]
  · simp [SaveToFile, h]

theorem claim_C2_dirty_flag_witness :
    (AddUser (NewRanking []) "U1").isModified = true ∧
    (SaveToFile (UpdateRating (NewRanking []) "U1" 2) none).1.isModified
      = false ∧
    SaveToFile (SaveToFile (UpdateRating (NewRanking []) "U1" 2) none).1
        (SaveToFile (UpdateRating (NewRanking []) "U1" 2) none).2 =
      ((SaveToFile (UpdateRating (NewRanking []) "U1" 2) none).1,
       (SaveToFile (UpdateRating (NewRanking []) "U1" 2) none).2) := by
  refine ⟨claim_C2_dirty_flag.1 _ _ rfl, claim_C2_dirty_flag.2.2.2.1 _ _, ?_⟩
  exact claim_C2_dirty_flag.2.2.2.2 _ _ (by decide)

/-! ### Claim C3 -/

/-- C3: save-then-load round-trip. For every dirty ledger (whose map, coming
from a Go map, has no duplicate keys), calling `SaveToFile` and then
`LoadFromFile` on a fresh ledger instance with the same path yields an
identical id-to-rating mapping: every id looks up to the same record, and
`GetRating` agrees everywhere. -/
theorem claim_C3_save_load_roundtrip (st : Ranking) (fs : FS)
    (admins2 : List String) (hdirty : st.isModified = true)
    (hnd : (st.users.map Prod.fst).Nodup) :
    ∀ id,
      lookupUser
          (LoadFromFile (NewRanking admins2) (SaveToFile st fs).2).users id =
        lookupUser st.users id ∧
      GetRating (LoadFromFile (NewRanking admins2) (SaveToFile st fs).2) id =
        GetRating st id := by
  intro id
  have hsave : (SaveToFile st fs).2 = some st.users := by
    simp [SaveToFile, hdirty]
  rw [hsave]
  have hlookup :
      lookupUser (LoadFromFile (NewRanking admins2) (some st.users)).users id =
        lookupUser st.users id := by
    show lookupUser (mergeUsers (NewRanking admins2).users st.users) id = _
    rw [lookupUser_mergeUsers st.users hnd]
    cases lookupUser st.users id <;> rfl
  exact ⟨hlookup, by unfold GetRating; rw [hlookup]⟩

theorem claim_C3_save_load_roundtrip_witness :
    (UpdateRating (UpdateRating (NewRanking []) "A" 4) "B" (-2)).isModified
        = true ∧
    ((UpdateRating (UpdateRating (NewRanking []) "A" 4) "B"
        (-2)).users.map Prod.fst).Nodup ∧
    GetRating
        (LoadFromFile (NewRanking ["adm"])
          (SaveToFile
            (UpdateRating (UpdateRating (NewRanking []) "A" 4) "B" (-2))
            none).2) "B" =
      GetRating (UpdateRating (UpdateRating (NewRanking []) "A" 4) "B" (-2))
        "B" := by
  refine ⟨rfl, by decide, ?_⟩
  exact (claim_C3_save_load_roundtrip
    (UpdateRating (UpdateRating (NewRanking []) "A" 4) "B" (-2)) none
    ["adm"] rfl (by decide) "B").2

/-! ### Claim C10 -/

/-- C10: `LoadFromFile` merges the file's records into the existing in-memory
map. After loading a file whose decoded map has no duplicate keys: every id
present in the file has the file's record, every id absent from the file
keeps its in-memory record, the dirty flag and admin set are untouched, and
loading into a clean ledger leaves it clean so that a subsequent save is a
no-op that writes nothing. -/
theorem claim_C10_load_merges (st : Ranking) (recs : List (String × User))
    (hnd : (recs.map Prod.fst).Nodup) :
    (LoadFromFile st (some recs)).isModified = st.isModified ∧
    (LoadFromFile st (some recs)).admins = st.admins ∧
    (∀ k u, lookupUser recs k = some u →
      lookupUser (LoadFromFile st (some recs)).users k = some u) ∧
    (∀ k, lookupUser recs k = none →
      lookupUser (LoadFromFile st (some recs)).users k =
        lookupUser st.users k) ∧
    (∀ fs : FS, st.isModified = false →
      SaveToFile (LoadFromFile st (some recs)) fs =
        (LoadFromFile st (some recs), fs)) := by
  refine ⟨rfl, rfl, fun k u hk => ?_, fun k hk => ?_, fun fs hclean => ?_⟩
  · show lookupUser (mergeUsers st.users recs) k = some u
    rw [lookupUser_mergeUsers recs hnd, hk]
  · show lookupUser (mergeUsers st.users recs) k = lookupUser st.users k
    rw [lookupUser_mergeUsers recs hnd, hk]
  · have : (LoadFromFile st (some recs)).isModified = false := hclean
    simp [SaveToFile, this]

theorem claim_C10_load_merges_witness :
    lookupUser
        (LoadFromFile
          { users := [("A", ⟨"A", 1⟩)], admins := [], isModified := false }
          (some [("B", ⟨"B", 7⟩), ("A", ⟨"A", 9⟩)])).users "A" =
      some ⟨"A", 9⟩ ∧
    lookupUser
        (LoadFromFile
          { users := [("A", ⟨"A", 1⟩)], admins := [], isModified := false }
          (some [("B", ⟨"B", 7⟩), ("A", ⟨"A", 9⟩)])).users "C" = none ∧
    SaveToFile
        (LoadFromFile
          { users := [("A", ⟨"A", 1⟩)], admins := [], isModified := false }
          (some [("B", ⟨"B", 7⟩), ("A", ⟨"A", 9⟩)])) none =
      (LoadFromFile
          { users := [("A", ⟨"A", 1⟩)], admins := [], isModified := false }
          (some [("B", ⟨"B", 7⟩), ("A", ⟨"A", 9⟩)]), none) := by
  have h := claim_C10_load_merges
    { users := [("A", ⟨"A", 1⟩)], admins := [], isModified := false }
    [("B", ⟨"B", 7⟩), ("A", ⟨"A", 9⟩)] (by decide)
  refine ⟨h.2.2.1 "A" ⟨"A", 9⟩ (by decide), ?_, h.2.2.2.2 none rfl⟩
  rw [h.2.2.2.1 "C" (by decide)]
  rfl

/-! ### Claim C4 -/

/-- The six-user state of the spec's worked example, built by the repository
operations: A:10, B:30, C:20, D:5, E:40, F:1. -/
def sixUserState : Ranking :=
  UpdateRating (UpdateRating (UpdateRating (UpdateRating (UpdateRating
    (UpdateRating (NewRanking []) "A" 10) "B" 30) "C" 20) "D" 5) "E" 40)
    "F" 1

/-- C4: `GetTop5` returns at most 5 records, sorted by rating in descending
order, and they dominate the remaining records: the returned list plus some
remainder is a permutation of all records, and every returned record's rating
is at least every remaining record's rating. On the six-user state A:10 B:30
C:20 D:5 E:40 F:1 it returns exactly E(40), B(30), C(20), A(10), D(5). -/
theorem claim_C4_top5 :
    (∀ st : Ranking,
      (GetTop5 st).length ≤ 5 ∧
      (GetTop5 st).Pairwise ratingGE ∧
      ∃ rest, (GetTop5 st ++ rest).Perm (st.users.map (fun kv => kv.2)) ∧
        ∀ u ∈ GetTop5 st, ∀ v ∈ rest, v.rating ≤ u.rating) ∧
    GetTop5 sixUserState =
      [⟨"E", 40⟩, ⟨"B", 30⟩, ⟨"C", 20⟩, ⟨"A", 10⟩, ⟨"D", 5⟩] := by
  refine ⟨fun st => ⟨?_, ?_, ?_⟩, by decide⟩
  · rw [GetTop5, List.length_take]
    exact min_le_left _ _
  · exact (sortDesc_pairwise _).sublist (List.take_sublist _ _)
  · refine ⟨(sortDesc (st.users.map (fun kv => kv.2))).drop 5, ?_, ?_⟩
    · rw [GetTop5, List.take_append_drop]
      exact sortDesc_perm _
    · intro u hu v hv
      have hs : ((GetTop5 st ++
          (sortDesc (st.users.map (fun kv => kv.2))).drop 5)).Pairwise
            ratingGE := by
        rw [GetTop5, List.take_append_drop]
        exact sortDesc_pairwise _
      exact (List.pairwise_append.mp hs).2.2 u hu v hv

theorem claim_C4_top5_witness :
    GetTop5 sixUserState =
      [⟨"E", 40⟩, ⟨"B", 30⟩, ⟨"C", 20⟩, ⟨"A", 10⟩, ⟨"D", 5⟩] :=
  claim_C4_top5.2

/-! ### Claim C5 -/

/-- C5: for an id absent from the users map, `GetRating` returns 0, and a
subsequent `GetTop5` does not list that id (the well-formedness hypothesis,
true of every record the operations create, says a record's stored id equals
its map key). `GetRating` performs no mutation in the source — a Go map read
does not insert — so it is embedded as a pure function of the state and the
state is unchanged by construction. -/
theorem claim_C5_unknown_id (st : Ranking) (id : String)
    (habs : lookupUser st.users id = none)
    (hwf : ∀ kv ∈ st.users, (kv.2).id = kv.1) :
    GetRating st id = 0 ∧ ∀ u ∈ GetTop5 st, u.id ≠ id := by
  constructor
  · unfold GetRating
    rw [habs]
  · intro u hu hid
    have humem : u ∈ st.users.map (fun kv => kv.2) :=
      (sortDesc_perm _).mem_iff.mp (List.take_subset _ _ hu)
    obtain ⟨kv, hkv, hkveq⟩ := List.mem_map.mp humem
    have hkey : kv.1 = id := by
      rw [← hwf kv hkv, hkveq, hid]
    have : id ∈ st.users.map Prod.fst := by
      rw [← hkey]
      exact List.mem_map_of_mem Prod.fst hkv
    exact not_mem_of_lookupUser_none st.users id habs this

theorem claim_C5_unknown_id_witness :
    GetRating sixUserState "unknown" = 0 ∧
    ∀ u ∈ GetTop5 sixUserState, u.id ≠ "unknown" :=
  claim_C5_unknown_id sixUserState "unknown" (by decide) (by decide)

/-! ### Claim C6 -/

/-- C6: the admin adjustment command. A non-admin caller gets a
permission-denied reply with the ledger and filesystem untouched (so every
`GetRating` is the same before and after); an admin caller with fewer than
three whitespace-separated parts, or whose delta part does not parse as a
signed integer, gets a usage reply with everything untouched; only an admin
caller with well-formed arguments causes `UpdateRating(target, delta)`
followed by a save and a confirmation reply. -/
theorem claim_C6_china_command (st : Ranking) (fs : FS)
    (authorID command : String) :
    (IsAdmin st ⟨cleanMention authorID.data⟩ = false →
      HandleChinaCommand st fs authorID command =
        (st, fs, Reply.permissionDenied)) ∧
    (IsAdmin st ⟨cleanMention authorID.data⟩ = true →
      (goFields command.data).length < 3 →
      HandleChinaCommand st fs authorID command =
        (st, fs, Reply.usageFormat)) ∧
    (∀ p0 p1 p2 rest,
      IsAdmin st ⟨cleanMention authorID.data⟩ = true →
      goFields command.data = p0 :: p1 :: p2 :: rest →
      atoi p2 = none →
      HandleChinaCommand st fs authorID command =
        (st, fs, Reply.usageInteger)) ∧
    (∀ p0 p1 p2 rest points,
      IsAdmin st ⟨cleanMention authorID.data⟩ = true →
      goFields command.data = p0 :: p1 :: p2 :: rest →
      atoi p2 = some points →
      HandleChinaCommand st fs authorID command =
        ((SaveToFile (UpdateRating st ⟨cleanMention p1⟩ points) fs).1,
         (SaveToFile (UpdateRating st ⟨cleanMention p1⟩ points) fs).2,
         Reply.confirmation ⟨cleanMention p1⟩ points)) := by
  refine ⟨fun hadm => ?_, fun hadm hlen => ?_,
    fun p0 p1 p2 rest hadm hf hatoi => ?_,
    fun p0 p1 p2 rest points hadm hf hatoi => ?_⟩
  · simp [HandleChinaCommand, hadm]
  · simp only [HandleChinaCommand, hadm, if_true]
    cases hf : goFields command.data with
    | nil => rfl
    | cons p0 t =>
      cases t with
      | nil => rfl
      | cons p1 t2 =>
        cases t2 with
        | nil => rfl
        | cons p2 t3 =>
          rw [hf] at hlen
          simp at hlen
          omega
  · simp only [HandleChinaCommand, hadm, if_true, hf, hatoi]
  · simp only [HandleChinaCommand, hadm, if_true, hf, hatoi]

/-- An admin set with the single admin `boss`, for exercising the command. -/
def stAdm : Ranking := NewRanking ["boss"]

theorem claim_C6_china_command_witness :
    HandleChinaCommand stAdm none "user9" "!china <@U42> -15" =
      (stAdm, none, Reply.permissionDenied) ∧
    HandleChinaCommand stAdm none "boss" "!china <@U42>" =
      (stAdm, none, Reply.usageFormat) ∧
    HandleChinaCommand stAdm none "boss" "!china <@U42> ten" =
      (stAdm, none, Reply.usageInteger) ∧
    (HandleChinaCommand stAdm none "boss" "!china <@U42> -15").2.2 =
      Reply.confirmation "U42" (-15) ∧
    GetRating (HandleChinaCommand stAdm none "boss" "!china <@U42> -15").1
      "U42" = -15 := by
  have h4 := (claim_C6_china_command stAdm none "boss"
    "!china <@U42> -15").2.2.2 ("!china".data) ("<@U42>".data) ("-15".data)
    [] (-15) (by decide) (by decide) (by decide)
  refine ⟨(claim_C6_china_command stAdm none "user9" "!china <@U42> -15").1
      (by decide),
    (claim_C6_china_command stAdm none "boss" "!china <@U42>").2.1
      (by decide) (by decide),
    (claim_C6_china_command stAdm none "boss" "!china <@U42> ten").2.2.1
      ("!china".data) ("<@U42>".data) ("ten".data) [] (by decide) (by decide)
      (by decide), ?_, ?_⟩
  · rw [h4]
    decide
  · rw [h4]
    decide

/-! ### Claim C7 -/

/-- The outcome of one 30-second tick's presence query in
`Ranking.trackUser`: `present` when a visible guild's cached state lists the
user in the channel the task started with, `absent` when not, `queryFailed`
when `s.UserGuilds` returned an error (the code also reaches the
`absent` exit when every per-guild state lookup fails, since `inChannel`
stays false). -/
inductive VoiceObs
  | present
  | absent
  | queryFailed
  deriving Repr, DecidableEq

/-- Loop of `Ranking.trackUser`: runs the ticker loop over a (finite) trace of per-tick
observations: on `present` add 1 rating point and keep looping; on `absent`
or a failed query, return — the goroutine ends and no later tick happens. -/
def trackUser (st : Ranking) (userID : String) : List VoiceObs → Ranking
  | [] => st
  | VoiceObs.present :: rest => trackUser (UpdateRating st userID 1) userID rest
  | VoiceObs.absent :: _ => st
  | VoiceObs.queryFailed :: _ => st

/-- Number of ticks the loop pays for: the leading run of `present`. -/
def awardedTicks : List VoiceObs → Nat
  | VoiceObs.present :: rest => awardedTicks rest + 1
  | _ => 0

theorem getRating_trackUser (st : Ranking) (uid : String)
    (obs : List VoiceObs) :
    GetRating (trackUser st uid obs) uid =
      GetRating st uid + awardedTicks obs := by
  induction obs generalizing st with
  | nil => simp [trackUser, awardedTicks]
  | cons o rest ih =>
    cases o with
    | present =>
      show GetRating (trackUser (UpdateRating st uid 1) uid rest) uid = _
      rw [ih, getRating_updateRating_self, awardedTicks]
      push_cast
      ring
    | absent => simp [trackUser, awardedTicks]
    | queryFailed => simp [trackUser, awardedTicks]

/-- C7: the supervisor loop adds exactly one rating point per confirmed
same-channel tick and stops for good at the first tick that observes the
user elsewhere or fails the query: later observations change nothing. A user
starting at 0 observed present on three consecutive checks ends at 3; one
observed absent on the second check ends at 1, even though later checks
would have observed presence. -/
theorem claim_C7_voice_tracking :
    (∀ (st : Ranking) (uid : String) (obs : List VoiceObs),
      GetRating (trackUser st uid obs) uid =
        GetRating st uid + awardedTicks obs) ∧
    (∀ (st : Ranking) (uid : String) (obs rest : List VoiceObs)
      (o : VoiceObs), o ≠ VoiceObs.present →
      trackUser st uid (obs ++ o :: rest) = trackUser st uid (obs ++ [o])) ∧
    GetRating (trackUser (AddUser (NewRanking []) "U1") "U1"
      [VoiceObs.present, VoiceObs.present, VoiceObs.present]) "U1" = 3 ∧
    GetRating (trackUser (AddUser (NewRanking []) "U1") "U1"
      [VoiceObs.present, VoiceObs.absent, VoiceObs.present,
       VoiceObs.present]) "U1" = 1 := by
  refine ⟨getRating_trackUser, ?_, by decide, by decide⟩
  intro st uid obs rest o ho
  induction obs generalizing st with
  | nil =>
    cases o with
    | present => exact absurd rfl ho
    | absent => rfl
    | queryFailed => rfl
  | cons p obs2 ih =>
    cases p with
    | present =>
      show trackUser (UpdateRating st uid 1) uid (obs2 ++ o :: rest) =
        trackUser (UpdateRating st uid 1) uid (obs2 ++ [o])
      exact ih _
    | absent => rfl
    | queryFailed => rfl

theorem claim_C7_voice_tracking_witness :
    trackUser (NewRanking []) "U1"
        ([VoiceObs.present] ++
          VoiceObs.absent :: [VoiceObs.present, VoiceObs.present]) =
      trackUser (NewRanking []) "U1" ([VoiceObs.present] ++
        [VoiceObs.absent]) :=
  claim_C7_voice_tracking.2.1 (NewRanking []) "U1" [VoiceObs.present]
    [VoiceObs.present, VoiceObs.present] VoiceObs.absent (by decide)

/-! ### Claim C8 -/

/-- The 17 MarkdownV2 reserved characters listed in `escapeMarkdownV2`'s
replacer. -/
def reservedChars : List Char :=
  ['_', '*', '[', ']', '(', ')', '~', '>', '#', '+', '-', '=', '|', '{', '}',
   '.', '!']

def isReserved (c : Char) : Bool := reservedChars.contains c

/-- One character's image under the replacer. Every pattern fed to
`strings.NewReplacer` here is a single character mapped to backslash plus
itself, so the replacer's single left-to-right pass is exactly this
character-wise substitution. -/
def escChar (c : Char) : List Char :=
  if isReserved c then ['\\', c] else [c]

def escapeList : List Char → List Char
  | [] => []
  | c :: rest => escChar c ++ escapeList rest

/-- Function `escapeMarkdownV2` from main.go. -/
def escapeMarkdownV2 (s : String) : String := ⟨escapeList s.data⟩

/-- The Discord→Telegram relay formats
`fmt.Sprintf("🎧:\n*%s*: %s", ...)` with `escapeMarkdownV2` applied
independently to the author name and to the message body. -/
def formatDiscordToTelegram (username content : String) : String :=
  "🎧:\n*" ++ escapeMarkdownV2 username ++ "*: " ++ escapeMarkdownV2 content

theorem isReserved_backslash : isReserved '\\' = false := by decide

theorem escapeList_head_not_reserved (l : List Char) (c : Char)
    (h : (escapeList l).head? = some c) : isReserved c = false := by
  cases l with
  | nil => simp [escapeList] at h
  | cons d rest =>
    replace h : (escChar d ++ escapeList rest).head? = some c := h
    unfold escChar at h
    by_cases hd : isReserved d = true
    · rw [if_pos hd] at h
      simp at h
      rw [← h]
      exact isReserved_backslash
    · rw [if_neg hd] at h
      simp at h
      rw [← h]
      simp at hd
      exact hd

theorem escapeList_chain (l : List Char) :
    (escapeList l).Chain' (fun a b => isReserved b = true → a = '\\') := by
  induction l with
  | nil => exact List.chain'_nil
  | cons c rest ih =>
    show List.Chain' _ (escChar c ++ escapeList rest)
    unfold escChar
    by_cases h : isReserved c = true
    · rw [if_pos h]
      show List.Chain' _ ('\\' :: c :: escapeList rest)
      rw [List.chain'_cons']
      refine ⟨fun y hy => ?_, ?_⟩
      · intro _; rfl
      · rw [List.chain'_cons']
        refine ⟨fun y hy => ?_, ih⟩
        intro hres
        rw [escapeList_head_not_reserved rest y hy] at hres
        cases hres
    · rw [if_neg h]
      show List.Chain' _ (c :: escapeList rest)
      rw [List.chain'_cons']
      refine ⟨fun y hy => ?_, ih⟩
      intro hres
      rw [escapeList_head_not_reserved rest y hy] at hres
      cases hres

theorem escapeList_count (l : List Char) :
    (escapeList l).count '\\' =
      l.count '\\' + l.countP (fun c => isReserved c) := by
  induction l with
  | nil => rfl
  | cons c rest ih =>
    show (escChar c ++ escapeList rest).count '\\' = _
    rw [List.count_append, ih]
    unfold escChar
    by_cases h : isReserved c = true
    · have hne : c ≠ '\\' := by
        intro hc
        rw [hc, isReserved_backslash] at h
        cases h
      rw [if_pos h]
      rw [List.count_cons, List.count_cons, List.countP_cons, List.count_cons]
      simp [h, hne]
      omega
    · rw [if_neg h]
      rw [List.count_cons, List.count_cons, List.countP_cons]
      simp [h]
      omega

theorem escapeList_id_of_no_reserved (l : List Char)
    (h : ∀ c ∈ l, isReserved c = false) : escapeList l = l := by
  induction l with
  | nil => rfl
  | cons c rest ih =>
    have hc : isReserved c = false := h c (List.mem_cons_self c rest)
    show escChar c ++ escapeList rest = c :: rest
    unfold escChar
    rw [hc]
    simp only [Bool.false_eq_true, if_false, List.singleton_append]
    rw [ih (fun d hd => h d (List.mem_cons_of_mem c hd))]

/-- C8: in `escapeMarkdownV2`'s output, no reserved character is unescaped —
the first character is never reserved and every reserved character is
immediately preceded by a backslash; the function inserts exactly one
backslash per reserved occurrence (output backslash count = input backslash
count + input reserved-character count); strings without reserved
characters pass through unchanged; and concretely
`a_b.c` becomes `a\_b\.c`. The relay applies this one function independently
to the author name and the message body (`formatDiscordToTelegram`). -/
theorem claim_C8_markdown_escape :
    (∀ s : String,
      (∀ c, (escapeMarkdownV2 s).data.head? = some c →
        isReserved c = false) ∧
      (escapeMarkdownV2 s).data.Chain'
        (fun a b => isReserved b = true → a = '\\') ∧
      (escapeMarkdownV2 s).data.count '\\' =
        s.data.count '\\' + s.data.countP (fun c => isReserved c) ∧
      ((∀ c ∈ s.data, isReserved c = false) → escapeMarkdownV2 s = s)) ∧
    escapeMarkdownV2 ("a_b.c") = "a\\_b\\.c" ∧
    formatDiscordToTelegram ("it!") ("hi.") =
      "🎧:\n*it\\!*: hi\\." := by
  refine ⟨fun s => ⟨?_, escapeList_chain s.data, escapeList_count s.data,
    fun h => ?_⟩, by decide, by decide⟩
  · intro c hc
    exact escapeList_head_not_reserved s.data c hc
  · show (⟨escapeList s.data⟩ : String) = s
    rw [escapeList_id_of_no_reserved s.data h]

theorem claim_C8_markdown_escape_witness :
    (∀ c ∈ ("hello world").data, isReserved c = false) ∧
    escapeMarkdownV2 ("hello world") = "hello world" := by
  refine ⟨by decide, ?_⟩
  exact ((claim_C8_markdown_escape.1 ("hello world")).2.2.2) (by decide)

/-! ### Claim C9 -/

/-- One `discordgo.VoiceStateUpdate` as consumed by the
`TrackVoiceActivity` handler: the user it concerns and the channel it now
places them in (empty string = left voice). -/
structure VoiceEvent where
  userID : String
  channelID : String
  deriving Repr, DecidableEq

/-- The set of currently running `trackUser` goroutines, one `(user,
channel)` entry per spawned task still alive. -/
abbrev TaskList := List (String × String)

/-- The body of the `TrackVoiceActivity` handler for one event: skip the
bot's own updates; when the channel id is nonempty, `AddUser` and then
unconditionally `go r.trackUser(s, v.UserID, v.ChannelID)`. The handler
consults no registry of running tasks: a task is appended whether or not one
already exists for this user (a task only ends later, when its own poll
observes the user gone, which cannot happen between two handler calls that
arrive before the next tick). -/
def handleVoiceEvent (botID : String) (stTasks : Ranking × TaskList)
    (e : VoiceEvent) : Ranking × TaskList :=
  if e.userID = botID then stTasks
  else if e.channelID ≠ "" then
    (AddUser stTasks.1 e.userID, stTasks.2 ++ [(e.userID, e.channelID)])
  else stTasks

def processVoiceEvents (botID : String) (stTasks : Ranking × TaskList)
    (events : List VoiceEvent) : Ranking × TaskList :=
  events.foldl (handleVoiceEvent botID) stTasks

/-- Number of running supervisor tasks for one user. -/
def tasksFor (uid : String) (tasks : TaskList) : Nat :=
  (tasks.filter (fun t => t.1 == uid)).length

/-- C9 counterexample: two join events for the same user, with no tick in
between, leave two supervisor tasks running for that user — the handler does
not de-duplicate, so "at most one supervisor task per user" is false. -/
theorem claim_C9_counterexample :
    ¬ (tasksFor "U1"
        (processVoiceEvents "bot" (NewRanking [], [])
          [⟨"U1", "C1"⟩, ⟨"U1", "C1"⟩]).2 ≤ 1) := by
  decide

/-- C9 amended: `TrackVoiceActivity` spawns a new `trackUser` task for every
non-bot event with a nonempty channel id, unconditionally — so while no
tick-driven termination has intervened, the number of running tasks for a
user equals the number of such join events for that user, which can exceed
one (duplicates are not prevented). -/
theorem claim_C9_amended (botID uid : String) (huid : uid ≠ botID)
    (events : List VoiceEvent) (init : Ranking × TaskList) :
    tasksFor uid (processVoiceEvents botID init events).2 =
      tasksFor uid init.2 +
        (events.filter
          (fun e => e.userID == uid && e.channelID != "")).length := by
  induction events generalizing init with
  | nil => simp [processVoiceEvents, tasksFor]
  | cons e rest ih =>
    show tasksFor uid
        (processVoiceEvents botID (handleVoiceEvent botID init e) rest).2 = _
    rw [ih]
    have hstep : tasksFor uid (handleVoiceEvent botID init e).2 =
        tasksFor uid init.2 +
          (if e.userID == uid && e.channelID != "" then 1 else 0) := by
      unfold handleVoiceEvent
      by_cases hbot : e.userID = botID
      · have huser : (e.userID == uid) = false := by
          rw [hbot]
          exact beq_false_of_ne (fun hh => huid hh.symm)
        have hcond : (e.userID == uid && e.channelID != "") = false := by
          rw [huser]
          rfl
        rw [if_pos hbot, hcond]
        simp
      · rw [if_neg hbot]
        by_cases hch : e.channelID ≠ ""
        · rw [if_pos hch]
          show tasksFor uid (init.2 ++ [(e.userID, e.channelID)]) = _
          unfold tasksFor
          rw [List.filter_append, List.length_append]
          have hch2 : (e.channelID != "") = true := bne_iff_ne.mpr hch
          by_cases hu : e.userID = uid
          · simp [hu, hch2]
          · have hu2 : (e.userID == uid) = false := beq_false_of_ne hu
            simp [hu2]
        · rw [if_neg hch]
          push_neg at hch
          have hch2 : (e.channelID != "") = false := by
            rw [hch]
            rfl
          simp [hch2, tasksFor]
    rw [hstep, List.filter_cons]
    by_cases hcond : (e.userID == uid && e.channelID != "") = true
    · simp [hcond]
      omega
    · simp only [Bool.not_eq_true] at hcond
      simp [hcond]

theorem claim_C9_amended_witness :
    tasksFor "U1"
        (processVoiceEvents "bot" (NewRanking [], [])
          [⟨"U1", "C1"⟩, ⟨"bot", "C1"⟩, ⟨"U1", ""⟩, ⟨"U1", "C2"⟩]).2 = 2 := by
  rw [claim_C9_amended "bot" "U1" (by decide)
    [⟨"U1", "C1"⟩, ⟨"bot", "C1"⟩, ⟨"U1", ""⟩, ⟨"U1", "C2"⟩]
    (NewRanking [], [])]
  decide

end ChinaScout
